import Mathlib

/-!
Verification of `pybuild.py`, a thin wrapper around `requirements.txt` that
installs declared dependencies and auto-removes unused transitive ones.

The pure logic of the script is embedded shallowly:

* Python's `str.lower()` (on the ASCII package names handled by pip) is
  modelled by mapping `Char.toLower` over the characters.
* `to_lowercase`, the dependency-list updates of `cmd_add` / `cmd_rm`, and the
  post-processing of `pip list` output in `pip_get_installed` are translated
  directly from the source.
* The external `pip` process is modelled by an oracle (`PipEnv`) giving the
  raw names reported by the k-th `pip list` call, the success of `pip
  install` / `pip uninstall` calls, and the output of `pip freeze`; `None`
  (resp. `false`) models a non-zero exit status, on which `run` makes the
  script exit immediately.
* `sync_deps` is translated into a function producing the trace of collaborator
  calls it issues together with an outcome; its unbounded `while True:` removal
  loop is given explicit fuel, `Outcome.fuelOut` meaning that the run has not
  terminated within the given number of loop iterations (non-termination is
  `fuelOut` for every fuel).
-/

namespace Pybuild

/-- Auxiliary: injectivity of `Char.toNat`. -/
theorem char_toNat_inj {c d : Char} (h : c.toNat = d.toNat) : c = d :=
  Char.eq_of_val_eq (UInt32.ext h)

/-- Auxiliary: `Char.ofNat` on a scalar value below the surrogate range. -/
theorem char_toNat_ofNat_valid (n : Nat) (h : n < 55296) : (Char.ofNat n).toNat = n := by
  have hv : n.isValidChar := Or.inl h
  simp [Char.ofNat, hv, Char.ofNatAux, Char.toNat, UInt32.toNat, BitVec.toNat_ofNatLt]

/-- `Char.toLower` maps an ASCII uppercase letter to its code point plus 32. -/
theorem toLower_toNat_of_upper {c : Char} (h1 : 65 ≤ c.toNat) (h2 : c.toNat ≤ 90) :
    (Char.toLower c).toNat = c.toNat + 32 := by
  unfold Char.toLower
  rw [if_pos ⟨h1, h2⟩]
  exact char_toNat_ofNat_valid _ (by omega)

/-- The result of `Char.toLower` is never an ASCII uppercase letter. -/
theorem toLower_toNat_not_upper (c : Char) :
    ¬(65 ≤ (Char.toLower c).toNat ∧ (Char.toLower c).toNat ≤ 90) := by
  unfold Char.toLower
  by_cases h : 65 ≤ c.toNat ∧ c.toNat ≤ 90
  · rw [if_pos h, char_toNat_ofNat_valid _ (by omega)]
    omega
  · rw [if_neg h]
    omega

/-- `Char.isUpper` tests exactly for the ASCII code points 65–90. -/
theorem isUpper_iff_toNat (c : Char) : c.isUpper = true ↔ 65 ≤ c.toNat ∧ c.toNat ≤ 90 := by
  simp only [Char.isUpper, Bool.and_eq_true, decide_eq_true_eq, UInt32.le_def, Char.toNat,
    Fin.le_def]
  exact Iff.rfl

/-- `Char.toLower` is idempotent. -/
theorem toLower_toLower (c : Char) : Char.toLower (Char.toLower c) = Char.toLower c := by
  by_cases h : 65 ≤ (Char.toLower c).toNat ∧ (Char.toLower c).toNat ≤ 90
  · exact absurd h (toLower_toNat_not_upper c)
  · unfold Char.toLower
    rw [if_neg]
    exact h

/-- `Char.toLower` moves an ASCII uppercase letter. -/
theorem toLower_ne_of_upper {c : Char} (h : c.isUpper = true) : Char.toLower c ≠ c := by
  obtain ⟨h1, h2⟩ := (isUpper_iff_toNat c).mp h
  intro heq
  have := toLower_toNat_of_upper h1 h2
  rw [heq] at this
  omega

/-- Python's `str.lower()` as used on pip package names: fold every character
with `Char.toLower` (pip package names are ASCII, where Python's Unicode
lowercasing agrees with the ASCII one). -/
def lower (s : String) : String := ⟨s.data.map Char.toLower⟩

/-- `lower` is idempotent. -/
theorem lower_lower (s : String) : lower (lower s) = lower s := by
  unfold lower
  congr 1
  simp only [List.map_map]
  exact List.map_congr_left (fun c _ => toLower_toLower c)

/-- No character of `lower s` is an ASCII uppercase letter. -/
theorem lower_no_upper (s : String) (c : Char) (hc : c ∈ (lower s).data) :
    c.isUpper = false := by
  unfold lower at hc
  simp only [List.mem_map] at hc
  obtain ⟨x, _, rfl⟩ := hc
  rw [Bool.eq_false_iff]
  intro h
  exact toLower_toNat_not_upper x ((isUpper_iff_toNat _).mp h)

/-- A string containing an ASCII uppercase letter is not in the image of `lower`. -/
theorem ne_lower_of_upper {d : String} (h : ∃ c ∈ d.data, c.isUpper = true)
    (s : String) : d ≠ lower s := by
  intro rfl_eq
  obtain ⟨c, hc, hup⟩ := h
  rw [rfl_eq] at hc
  rw [lower_no_upper s c hc] at hup
  cases hup

/-- `to_lowercase` from the source: lowercase every element of the list (the
Python function mutates the list in place; the model returns the new list). -/
def to_lowercase (l : List String) : List String := l.map lower

/-- The dependency-list update performed by `cmd_add`: lowercase the given
package names, then append each one to `config["dependencies"]` unless it is
already present (checked against the list as it grows). -/
def cmd_add (deps : List String) (packages : List String) : List String :=
  (to_lowercase packages).foldl (fun acc p => if acc.contains p then acc else acc ++ [p]) deps

/-- The dependency-list update performed by `cmd_rm`: lowercase the given
package names, then keep exactly the entries of `config["dependencies"]` that
are not among them. -/
def cmd_rm (deps : List String) (packages : List String) : List String :=
  deps.filter (fun p => !((to_lowercase packages).contains p))

/-- `base_packages` from `pip_get_installed`. -/
def base_packages : List String := ["pip", "setuptools"]

/-- Post-processing of the `pip list --not-required --format json` output in
`pip_get_installed`: given the raw reported names, keep a name unless
`uninstall_base_packages` is set and the *raw* name is in `base_packages`,
and lowercase what is kept. -/
def pip_get_installed (uninstall_base_packages : Bool) (raw : List String) : List String :=
  (raw.filter (fun x => !uninstall_base_packages || !(base_packages.contains x))).map lower

/-- One collaborator call issued by `sync_deps`, as observed at the process
boundary.  `freeze contents` means `pip freeze` succeeded and its raw output
`contents` was written over `requirements.txt` verbatim. -/
inductive Event where
  | inspect (uninstall_base_packages : Bool) (installed : List String)
  | install (packages : List String)
  | uninstall (packages : List String)
  | freeze (contents : String)
  deriving DecidableEq, Repr

/-- Outcome of a `sync_deps` run: normal completion, process exit with a
non-zero status after a failed collaborator call (`run` calls `exit(-1)`),
or fuel exhausted inside the removal loop (the run is still going). -/
inductive Outcome where
  | ok
  | failed
  | fuelOut
  deriving DecidableEq, Repr

/-- Behaviour of the external pip process over one `sync_deps` run:
`list_output k` is the sequence of names the k-th `pip list` call reports
(`none`: the call exits non-zero); `install_ok` / `uninstall_ok` give the exit
status of install and uninstall calls (uninstall indexed by loop iteration);
`freeze_output` is the raw `pip freeze` output (`none`: non-zero exit). -/
structure PipEnv where
  list_output : Nat → Option (List String)
  install_ok : List String → Bool
  uninstall_ok : Nat → List String → Bool
  freeze_output : Option String

/-- The `while True:` removal loop of `sync_deps`, with explicit fuel.  Each
iteration queries `pip list` afresh (call counter `k`), excludes base
packages, computes `to_uninstall`, breaks when it is empty, and otherwise
issues one batch uninstall call and repeats. -/
def sync_deps_loop (env : PipEnv) (deps : List String) : Nat → Nat → List Event × Outcome
  | 0, _ => ([], Outcome.fuelOut)
  | fuel + 1, k =>
    match env.list_output k with
    | none => ([], Outcome.failed)
    | some raw =>
      let installed := pip_get_installed true raw
      let to_uninstall := installed.filter (fun p => !(deps.contains p))
      if to_uninstall.isEmpty then
        ([Event.inspect true installed], Outcome.ok)
      else if env.uninstall_ok k to_uninstall then
        let r := sync_deps_loop env deps fuel (k + 1)
        (Event.inspect true installed :: Event.uninstall to_uninstall :: r.1, r.2)
      else
        ([Event.inspect true installed, Event.uninstall to_uninstall], Outcome.failed)

/-- The tail of `sync_deps` after the install phase: run the removal loop and,
on normal completion, call `pip freeze` and write `requirements.txt`. -/
def sync_deps_after_install (env : PipEnv) (deps : List String) (fuel : Nat) :
    List Event × Outcome :=
  let r := sync_deps_loop env deps fuel 1
  match r.2 with
  | Outcome.ok =>
    match env.freeze_output with
    | none => (r.1, Outcome.failed)
    | some txt => (r.1 ++ [Event.freeze txt], Outcome.ok)
  | out => (r.1, out)

/-- `sync_deps`: query the installed set (base packages included), compute
`to_install` by filtering the declared list, issue at most one batch install
call, then run the removal loop and finally `pip freeze`.  Returns the trace
of collaborator calls and the outcome. -/
def sync_deps (env : PipEnv) (deps : List String) (fuel : Nat) : List Event × Outcome :=
  match env.list_output 0 with
  | none => ([], Outcome.failed)
  | some raw =>
    let installed := pip_get_installed false raw
    let to_install := deps.filter (fun p => !(installed.contains p))
    if to_install.isEmpty then
      let r := sync_deps_after_install env deps fuel
      (Event.inspect false installed :: r.1, r.2)
    else if env.install_ok to_install then
      let r := sync_deps_after_install env deps fuel
      (Event.inspect false installed :: Event.install to_install :: r.1, r.2)
    else
      ([Event.inspect false installed, Event.install to_install], Outcome.failed)

/-- Recognize install events. -/
def isInstallEvent : Event → Bool
  | Event.install _ => true
  | _ => false

/-- Recognize uninstall events. -/
def isUninstallEvent : Event → Bool
  | Event.uninstall _ => true
  | _ => false

/-- Recognize inspection events. -/
def isInspectEvent : Event → Bool
  | Event.inspect _ _ => true
  | _ => false

/-- Number of events of a given kind in a trace. -/
def countEvents (f : Event → Bool) (tr : List Event) : Nat := (tr.filter f).length

/-- Bridge between `List.contains` and membership for strings. -/
theorem contains_iff_mem {l : List String} {a : String} : l.contains a = true ↔ a ∈ l := by
  simp [List.contains, List.elem_eq_mem]

/-- Bridge between `List.contains` and non-membership for strings. -/
theorem contains_eq_false {l : List String} {a : String} (h : a ∉ l) : l.contains a = false := by
  simp [List.contains, List.elem_eq_mem, h]

/-- The fold inside `cmd_add` only ever appends, and appends only names taken
from its input that were not already present. -/
theorem add_fold_append (ns : List String) : ∀ S : List String,
    ∃ T, List.foldl (fun acc p => if acc.contains p then acc else acc ++ [p]) S ns = S ++ T
      ∧ ∀ t ∈ T, t ∈ ns ∧ t ∉ S := by
  induction ns with
  | nil => exact fun S => ⟨[], by simp, by simp⟩
  | cons p ns ih =>
    intro S
    by_cases hp : p ∈ S
    · obtain ⟨T, hT, hmem⟩ := ih S
      refine ⟨T, ?_, fun t ht => ⟨List.mem_cons_of_mem _ (hmem t ht).1, (hmem t ht).2⟩⟩
      rw [List.foldl_cons, if_pos (contains_iff_mem.mpr hp)]
      exact hT
    · obtain ⟨T, hT, hmem⟩ := ih (S ++ [p])
      refine ⟨p :: T, ?_, ?_⟩
      · rw [List.foldl_cons, if_neg]
        · rw [hT, List.append_cons S p T]
        · rw [contains_eq_false hp]
          simp
      · intro t ht
        rcases List.mem_cons.mp ht with rfl | ht'
        · exact ⟨List.mem_cons_self _ _, hp⟩
        · have := hmem t ht'
          refine ⟨List.mem_cons_of_mem _ this.1, fun hts => this.2 (List.mem_append_left _ hts)⟩

/-- The fold inside `cmd_add` appends pairwise-distinct fresh names in the
order given. -/
theorem add_fold_all_new (ns : List String) : ∀ S : List String, ns.Nodup →
    (∀ p ∈ ns, p ∉ S) →
    List.foldl (fun acc p => if acc.contains p then acc else acc ++ [p]) S ns = S ++ ns := by
  induction ns with
  | nil => simp
  | cons p ns ih =>
    intro S hnd hnew
    rw [List.foldl_cons, if_neg]
    · rw [ih (S ++ [p]) (List.Nodup.of_cons hnd), List.append_cons S p ns]
      intro q hq
      rw [List.mem_append]
      rintro (hqS | hqp)
      · exact hnew q (List.mem_cons_of_mem _ hq) hqS
      · rw [List.mem_singleton] at hqp
        subst hqp
        exact (List.nodup_cons.mp hnd).1 hq
    · rw [contains_eq_false (hnew p (List.mem_cons_self _ _))]
      simp

/-- Folding the two spellings of flask. -/
theorem to_lowercase_flask : to_lowercase ["Flask", "flask"] = ["flask", "flask"] := by decide

/-- C7.  Case-folding consistency of add: `cmd_add` folds the given names to
lowercase, skips names already present, keeps the existing entries in place
and order, and appends genuinely new names in the order given; in particular
adding `"Flask"` and `"flask"` (in one call or in two calls in either order)
to a set not containing flask appends the single entry `"flask"`. -/
theorem cmd_add_case_folding (S : List String) (h : "flask" ∉ S) :
    cmd_add S ["Flask", "flask"] = S ++ ["flask"]
    ∧ cmd_add (cmd_add S ["Flask"]) ["flask"] = S ++ ["flask"]
    ∧ cmd_add (cmd_add S ["flask"]) ["Flask"] = S ++ ["flask"]
    ∧ (∀ N, ∃ T, cmd_add S N = S ++ T ∧ ∀ t ∈ T, t ∈ to_lowercase N ∧ t ∉ S)
    ∧ (∀ n, lower n ∈ S → cmd_add S [n] = S)
    ∧ (∀ N, (to_lowercase N).Nodup → (∀ p ∈ to_lowercase N, p ∉ S) →
        cmd_add S N = S ++ to_lowercase N) := by
  have hflask : ∀ S' : List String, "flask" ∉ S' → cmd_add S' ["Flask"] = S' ++ ["flask"] := by
    intro S' h'
    have : to_lowercase ["Flask"] = ["flask"] := by decide
    rw [cmd_add, this, List.foldl_cons, if_neg]
    · rw [List.foldl_nil]
    · rw [contains_eq_false h']
      simp
  have hflask2 : ∀ S' : List String, "flask" ∉ S' → cmd_add S' ["flask"] = S' ++ ["flask"] := by
    intro S' h'
    have : to_lowercase ["flask"] = ["flask"] := by decide
    rw [cmd_add, this, List.foldl_cons, if_neg]
    · rw [List.foldl_nil]
    · rw [contains_eq_false h']
      simp
  have hmem : "flask" ∈ S ++ ["flask"] := List.mem_append_right _ (List.mem_singleton.mpr rfl)
  have hskip : ∀ S' : List String, "flask" ∈ S' → cmd_add S' ["flask"] = S' := by
    intro S' h'
    have : to_lowercase ["flask"] = ["flask"] := by decide
    rw [cmd_add, this, List.foldl_cons, if_pos (contains_iff_mem.mpr h'), List.foldl_nil]
  refine ⟨?_, ?_, ?_, ?_, ?_, ?_⟩
  · rw [cmd_add, to_lowercase_flask, List.foldl_cons, if_neg]
    · rw [List.foldl_cons, if_pos, List.foldl_nil]
      exact contains_iff_mem.mpr hmem
    · rw [contains_eq_false h]
      simp
  · rw [hflask S h]
    exact hskip _ hmem
  · rw [hflask2 S h]
    have : to_lowercase ["Flask"] = ["flask"] := by decide
    rw [cmd_add, this, List.foldl_cons, if_pos (contains_iff_mem.mpr hmem), List.foldl_nil]
  · exact fun N => add_fold_append (to_lowercase N) S
  · intro n hn
    have : to_lowercase [n] = [lower n] := rfl
    rw [cmd_add, this, List.foldl_cons, if_pos (contains_iff_mem.mpr hn), List.foldl_nil]
  · exact fun N hnd hnew => add_fold_all_new (to_lowercase N) S hnd hnew

/-- C8.  Add/remove round trip: if none of the given names is (after case
folding) already declared, removing them after adding them restores the set
exactly; and `cmd_rm` is exactly the deletion of the entries among the folded
given names, preserving the relative order of the survivors. -/
theorem cmd_add_cmd_rm_roundtrip (S N : List String) (h : ∀ n ∈ N, lower n ∉ S) :
    cmd_rm (cmd_add S N) N = S
    ∧ (∀ T : List String, List.Sublist (cmd_rm T N) T)
    ∧ (∀ T : List String, ∀ p : String, p ∈ cmd_rm T N ↔ p ∈ T ∧ p ∉ to_lowercase N) := by
  have hSnot : ∀ p ∈ S, p ∉ to_lowercase N := by
    intro p hp hpN
    obtain ⟨n, hn, rfl⟩ := List.mem_map.mp hpN
    exact h n hn hp
  refine ⟨?_, fun T => List.filter_sublist T, ?_⟩
  · obtain ⟨T, hT, hmem⟩ := add_fold_append (to_lowercase N) S
    unfold cmd_rm cmd_add
    rw [hT, List.filter_append]
    have h1 : S.filter (fun p => !((to_lowercase N).contains p)) = S := by
      rw [List.filter_eq_self]
      intro p hp
      rw [contains_eq_false (hSnot p hp)]
      simp
    have h2 : T.filter (fun p => !((to_lowercase N).contains p)) = [] := by
      rw [List.filter_eq_nil_iff]
      intro t ht
      rw [contains_iff_mem.mpr (hmem t ht).1]
      simp
    rw [h1, h2, List.append_nil]
  · intro T p
    rw [cmd_rm, List.mem_filter]
    constructor
    · rintro ⟨hpT, hpb⟩
      refine ⟨hpT, fun hpN => ?_⟩
      rw [contains_iff_mem.mpr hpN] at hpb
      simp at hpb
    · rintro ⟨hpT, hpN⟩
      refine ⟨hpT, ?_⟩
      rw [contains_eq_false hpN]
      simp

/-- The extra (installed but undeclared) names computed from one `pip list`
report in the removal loop. -/
def extra_of (deps raw : List String) : List String :=
  (pip_get_installed true raw).filter (fun p => !(deps.contains p))

/-- Removal-loop iteration on a failed `pip list` call. -/
theorem sync_deps_loop_none (env : PipEnv) (deps : List String) (fuel k : Nat)
    (h : env.list_output k = none) :
    sync_deps_loop env deps (fuel + 1) k = ([], Outcome.failed) := by
  rw [sync_deps_loop, h]

/-- Removal-loop iteration at the fixpoint: the loop breaks after the
inspection, issuing no uninstall call. -/
theorem sync_deps_loop_done (env : PipEnv) (deps : List String) (fuel k : Nat)
    (raw : List String) (h : env.list_output k = some raw) (he : extra_of deps raw = []) :
    sync_deps_loop env deps (fuel + 1) k =
      ([Event.inspect true (pip_get_installed true raw)], Outcome.ok) := by
  rw [sync_deps_loop, h]
  simp only [extra_of] at he
  simp only [he, List.isEmpty_nil, if_true]

/-- Removal-loop iteration with a non-empty extra set and a successful
uninstall call: one batch uninstall, then the loop repeats with the next
(fresh) inspection. -/
theorem sync_deps_loop_step (env : PipEnv) (deps : List String) (fuel k : Nat)
    (raw : List String) (h : env.list_output k = some raw) (hne : extra_of deps raw ≠ [])
    (hok : env.uninstall_ok k (extra_of deps raw) = true) :
    sync_deps_loop env deps (fuel + 1) k =
      (Event.inspect true (pip_get_installed true raw)
        :: Event.uninstall (extra_of deps raw)
        :: (sync_deps_loop env deps fuel (k + 1)).1,
       (sync_deps_loop env deps fuel (k + 1)).2) := by
  rw [sync_deps_loop, h]
  simp only [extra_of] at hne hok
  have hne2 : (List.filter (fun p => !deps.contains p) (pip_get_installed true raw)).isEmpty
      = false := by
    rw [Bool.eq_false_iff]
    intro hcontra
    exact hne (List.isEmpty_iff.mp hcontra)
  simp only [hne2, Bool.false_eq_true, if_false, hok, if_true, extra_of]

/-- Removal-loop iteration with a non-empty extra set and a failed uninstall
call: the run aborts right after the uninstall call. -/
theorem sync_deps_loop_fail (env : PipEnv) (deps : List String) (fuel k : Nat)
    (raw : List String) (h : env.list_output k = some raw) (hne : extra_of deps raw ≠ [])
    (hbad : env.uninstall_ok k (extra_of deps raw) = false) :
    sync_deps_loop env deps (fuel + 1) k =
      ([Event.inspect true (pip_get_installed true raw),
        Event.uninstall (extra_of deps raw)], Outcome.failed) := by
  rw [sync_deps_loop, h]
  simp only [extra_of] at hne hbad
  have hne2 : (List.filter (fun p => !deps.contains p) (pip_get_installed true raw)).isEmpty
      = false := by
    rw [Bool.eq_false_iff]
    intro hcontra
    exact hne (List.isEmpty_iff.mp hcontra)
  simp only [hne2, Bool.false_eq_true, if_false, hbad, Bool.true_eq_false, extra_of]

/-- The missing (declared but not installed) names computed from the first
`pip list` report in the install phase. -/
def to_install_of (deps raw : List String) : List String :=
  deps.filter (fun p => !((pip_get_installed false raw).contains p))

/-- `sync_deps` on a failed first `pip list` call. -/
theorem sync_deps_none (env : PipEnv) (deps : List String) (fuel : Nat)
    (h : env.list_output 0 = none) :
    sync_deps env deps fuel = ([], Outcome.failed) := by
  rw [sync_deps, h]

/-- `sync_deps` when nothing is missing: no install call is issued. -/
theorem sync_deps_no_install (env : PipEnv) (deps : List String) (fuel : Nat)
    (raw : List String) (h : env.list_output 0 = some raw) (he : to_install_of deps raw = []) :
    sync_deps env deps fuel =
      (Event.inspect false (pip_get_installed false raw)
         :: (sync_deps_after_install env deps fuel).1,
       (sync_deps_after_install env deps fuel).2) := by
  rw [sync_deps, h]
  simp only [to_install_of] at he
  simp only [he, List.isEmpty_nil, if_true]

/-- `sync_deps` with a non-empty missing set and a successful install call:
one batch install, then the removal loop. -/
theorem sync_deps_with_install (env : PipEnv) (deps : List String) (fuel : Nat)
    (raw : List String) (h : env.list_output 0 = some raw) (hne : to_install_of deps raw ≠ [])
    (hok : env.install_ok (to_install_of deps raw) = true) :
    sync_deps env deps fuel =
      (Event.inspect false (pip_get_installed false raw)
         :: Event.install (to_install_of deps raw)
         :: (sync_deps_after_install env deps fuel).1,
       (sync_deps_after_install env deps fuel).2) := by
  rw [sync_deps, h]
  simp only [to_install_of] at hne hok
  have hne2 : (List.filter (fun p => !(pip_get_installed false raw).contains p) deps).isEmpty
      = false := by
    rw [Bool.eq_false_iff]
    intro hcontra
    exact hne (List.isEmpty_iff.mp hcontra)
  simp only [hne2, Bool.false_eq_true, if_false, hok, if_true, to_install_of]

/-- `sync_deps` with a non-empty missing set and a failed install call: the
run aborts right after the install call. -/
theorem sync_deps_install_failed (env : PipEnv) (deps : List String) (fuel : Nat)
    (raw : List String) (h : env.list_output 0 = some raw) (hne : to_install_of deps raw ≠ [])
    (hbad : env.install_ok (to_install_of deps raw) = false) :
    sync_deps env deps fuel =
      ([Event.inspect false (pip_get_installed false raw),
        Event.install (to_install_of deps raw)], Outcome.failed) := by
  rw [sync_deps, h]
  simp only [to_install_of] at hne hbad
  have hne2 : (List.filter (fun p => !(pip_get_installed false raw).contains p) deps).isEmpty
      = false := by
    rw [Bool.eq_false_iff]
    intro hcontra
    exact hne (List.isEmpty_iff.mp hcontra)
  simp only [hne2, Bool.false_eq_true, if_false, hbad, Bool.true_eq_false, to_install_of]

/-- Every event of the removal loop is a base-package-excluding inspection or
an uninstall batch. -/
theorem sync_deps_loop_events (env : PipEnv) (deps : List String) :
    ∀ fuel k, ∀ e ∈ (sync_deps_loop env deps fuel k).1,
      (∃ l, e = Event.inspect true l) ∨ ∃ ps, e = Event.uninstall ps := by
  intro fuel
  induction fuel with
  | zero =>
    intro k e he
    simp [sync_deps_loop] at he
  | succ fuel ih =>
    intro k e he
    cases hl : env.list_output k with
    | none =>
      rw [sync_deps_loop_none env deps fuel k hl] at he
      simp at he
    | some raw =>
      by_cases hex : extra_of deps raw = []
      · rw [sync_deps_loop_done env deps fuel k raw hl hex] at he
        rw [List.mem_singleton] at he
        exact Or.inl ⟨_, he⟩
      · cases hu : env.uninstall_ok k (extra_of deps raw) with
        | false =>
          rw [sync_deps_loop_fail env deps fuel k raw hl hex hu] at he
          rcases List.mem_cons.mp he with rfl | he2
          · exact Or.inl ⟨_, rfl⟩
          · rw [List.mem_singleton] at he2
            exact Or.inr ⟨_, he2⟩
        | true =>
          rw [sync_deps_loop_step env deps fuel k raw hl hex hu] at he
          rcases List.mem_cons.mp he with rfl | he2
          · exact Or.inl ⟨_, rfl⟩
          · rcases List.mem_cons.mp he2 with rfl | he3
            · exact Or.inr ⟨_, rfl⟩
            · exact ih (k + 1) e he3

/-- The removal loop issues no install call. -/
theorem sync_deps_loop_no_install (env : PipEnv) (deps : List String) (fuel k : Nat) :
    ∀ a, Event.install a ∉ (sync_deps_loop env deps fuel k).1 := by
  intro a ha
  rcases sync_deps_loop_events env deps fuel k _ ha with ⟨l, hl⟩ | ⟨ps, hps⟩
  · exact Event.noConfusion hl
  · exact Event.noConfusion hps

/-- The removal loop writes no snapshot. -/
theorem sync_deps_loop_no_freeze (env : PipEnv) (deps : List String) (fuel k : Nat) :
    ∀ t, Event.freeze t ∉ (sync_deps_loop env deps fuel k).1 := by
  intro t ht
  rcases sync_deps_loop_events env deps fuel k _ ht with ⟨l, hl⟩ | ⟨ps, hps⟩
  · exact Event.noConfusion hl
  · exact Event.noConfusion hps

/-- A normally-terminating removal loop ends with an inspection whose
reported packages are all declared (the reached fixpoint). -/
theorem sync_deps_loop_ok_structure (env : PipEnv) (deps : List String) :
    ∀ fuel k, (sync_deps_loop env deps fuel k).2 = Outcome.ok →
      ∃ pre inst, (sync_deps_loop env deps fuel k).1 = pre ++ [Event.inspect true inst]
        ∧ ∀ p ∈ inst, p ∈ deps := by
  intro fuel
  induction fuel with
  | zero =>
    intro k h
    simp [sync_deps_loop] at h
  | succ fuel ih =>
    intro k h
    cases hl : env.list_output k with
    | none =>
      rw [sync_deps_loop_none env deps fuel k hl] at h
      simp at h
    | some raw =>
      by_cases hex : extra_of deps raw = []
      · rw [sync_deps_loop_done env deps fuel k raw hl hex]
        refine ⟨[], pip_get_installed true raw, by simp, ?_⟩
        intro p hp
        by_contra hpd
        have hc : deps.contains p = false := contains_eq_false hpd
        have hfe := List.filter_eq_nil_iff.mp hex p hp
        rw [hc] at hfe
        simp at hfe
      · cases hu : env.uninstall_ok k (extra_of deps raw) with
        | false =>
          rw [sync_deps_loop_fail env deps fuel k raw hl hex hu] at h
          simp at h
        | true =>
          rw [sync_deps_loop_step env deps fuel k raw hl hex hu] at h
          obtain ⟨pre, inst, htr, hmem⟩ := ih (k + 1) h
          rw [sync_deps_loop_step env deps fuel k raw hl hex hu]
          refine ⟨Event.inspect true (pip_get_installed true raw)
            :: Event.uninstall (extra_of deps raw) :: pre, inst, ?_, hmem⟩
          rw [htr]
          simp

/-- A normally-terminating removal loop issues exactly one more inspection
than uninstall batches: every uninstall is followed by a fresh inspection. -/
theorem sync_deps_loop_count (env : PipEnv) (deps : List String) :
    ∀ fuel k, (sync_deps_loop env deps fuel k).2 = Outcome.ok →
      countEvents isInspectEvent (sync_deps_loop env deps fuel k).1
        = countEvents isUninstallEvent (sync_deps_loop env deps fuel k).1 + 1 := by
  intro fuel
  induction fuel with
  | zero =>
    intro k h
    simp [sync_deps_loop] at h
  | succ fuel ih =>
    intro k h
    cases hl : env.list_output k with
    | none =>
      rw [sync_deps_loop_none env deps fuel k hl] at h
      simp at h
    | some raw =>
      by_cases hex : extra_of deps raw = []
      · rw [sync_deps_loop_done env deps fuel k raw hl hex]
        simp [countEvents, isInspectEvent, isUninstallEvent]
      · cases hu : env.uninstall_ok k (extra_of deps raw) with
        | false =>
          rw [sync_deps_loop_fail env deps fuel k raw hl hex hu] at h
          simp at h
        | true =>
          rw [sync_deps_loop_step env deps fuel k raw hl hex hu] at h
          rw [sync_deps_loop_step env deps fuel k raw hl hex hu]
          have := ih (k + 1) h
          simp [countEvents, List.filter_cons, isInspectEvent, isUninstallEvent] at this ⊢
          omega

/-- Every uninstall batch of the removal loop is the extra set computed from
the report of one of the `pip list` calls of the run. -/
theorem sync_deps_loop_uninstall_origin (env : PipEnv) (deps : List String) :
    ∀ fuel k ps, Event.uninstall ps ∈ (sync_deps_loop env deps fuel k).1 →
      ∃ j raw, env.list_output j = some raw ∧ k ≤ j ∧ ps = extra_of deps raw := by
  intro fuel
  induction fuel with
  | zero =>
    intro k ps h
    simp [sync_deps_loop] at h
  | succ fuel ih =>
    intro k ps h
    cases hl : env.list_output k with
    | none =>
      rw [sync_deps_loop_none env deps fuel k hl] at h
      simp at h
    | some raw =>
      by_cases hex : extra_of deps raw = []
      · rw [sync_deps_loop_done env deps fuel k raw hl hex] at h
        rw [List.mem_singleton] at h
        exact Event.noConfusion h
      · cases hu : env.uninstall_ok k (extra_of deps raw) with
        | false =>
          rw [sync_deps_loop_fail env deps fuel k raw hl hex hu] at h
          rcases List.mem_cons.mp h with h1 | h2
          · exact Event.noConfusion h1
          · rw [List.mem_singleton] at h2
            injection h2 with hps
            exact ⟨k, raw, hl, Nat.le_refl k, hps⟩
        | true =>
          rw [sync_deps_loop_step env deps fuel k raw hl hex hu] at h
          rcases List.mem_cons.mp h with h1 | h2
          · exact Event.noConfusion h1
          · rcases List.mem_cons.mp h2 with h3 | h4
            · injection h3 with hps
              exact ⟨k, raw, hl, Nat.le_refl k, hps⟩
            · obtain ⟨j, raw2, hj, hkj, hps⟩ := ih (k + 1) ps h4
              exact ⟨j, raw2, hj, Nat.le_of_succ_le hkj, hps⟩

/-- `sync_deps_after_install` when the loop reaches its fixpoint and the
snapshot call succeeds. -/
theorem sync_deps_after_install_ok (env : PipEnv) (deps : List String) (fuel : Nat)
    (txt : String) (hloop : (sync_deps_loop env deps fuel 1).2 = Outcome.ok)
    (hfz : env.freeze_output = some txt) :
    sync_deps_after_install env deps fuel
      = ((sync_deps_loop env deps fuel 1).1 ++ [Event.freeze txt], Outcome.ok) := by
  simp only [sync_deps_after_install]
  rw [hloop, hfz]

/-- `sync_deps_after_install` when the loop reaches its fixpoint but the
snapshot call fails: nothing is written and the run aborts. -/
theorem sync_deps_after_install_freeze_fail (env : PipEnv) (deps : List String) (fuel : Nat)
    (hloop : (sync_deps_loop env deps fuel 1).2 = Outcome.ok)
    (hfz : env.freeze_output = none) :
    sync_deps_after_install env deps fuel
      = ((sync_deps_loop env deps fuel 1).1, Outcome.failed) := by
  simp only [sync_deps_after_install]
  rw [hloop, hfz]

/-- `sync_deps_after_install` when the loop does not reach a fixpoint: no
snapshot call is made. -/
theorem sync_deps_after_install_not_ok (env : PipEnv) (deps : List String) (fuel : Nat)
    (hloop : (sync_deps_loop env deps fuel 1).2 ≠ Outcome.ok) :
    sync_deps_after_install env deps fuel
      = ((sync_deps_loop env deps fuel 1).1, (sync_deps_loop env deps fuel 1).2) := by
  cases ho : (sync_deps_loop env deps fuel 1).2 with
  | ok => exact absurd ho hloop
  | failed =>
    simp only [sync_deps_after_install]
    rw [ho]
  | fuelOut =>
    simp only [sync_deps_after_install]
    rw [ho]

/-- A snapshot event after the install phase certifies a normal completion
with the snapshot text coming from the `pip freeze` call. -/
theorem sync_deps_after_install_freeze (env : PipEnv) (deps : List String) (fuel : Nat)
    (t : String) (h : Event.freeze t ∈ (sync_deps_after_install env deps fuel).1) :
    (sync_deps_after_install env deps fuel).2 = Outcome.ok ∧ env.freeze_output = some t := by
  by_cases hloop : (sync_deps_loop env deps fuel 1).2 = Outcome.ok
  · cases hfz : env.freeze_output with
    | none =>
      rw [sync_deps_after_install_freeze_fail env deps fuel hloop hfz] at h
      exact absurd h (sync_deps_loop_no_freeze env deps fuel 1 t)
    | some txt =>
      rw [sync_deps_after_install_ok env deps fuel txt hloop hfz] at h ⊢
      rcases List.mem_append.mp h with h1 | h2
      · exact absurd h1 (sync_deps_loop_no_freeze env deps fuel 1 t)
      · rw [List.mem_singleton] at h2
        injection h2 with ht
        exact ⟨rfl, by rw [ht]⟩
  · rw [sync_deps_after_install_not_ok env deps fuel hloop] at h
    exact absurd h (sync_deps_loop_no_freeze env deps fuel 1 t)

/-- Membership in the base-excluding inspection result: every reported name is
the lowercasing of a raw name that is not (by raw-name comparison) a base
package. -/
theorem mem_pip_get_installed_true {raw : List String} {p : String}
    (hp : p ∈ pip_get_installed true raw) :
    ∃ x, x ∈ raw ∧ x ∉ base_packages ∧ p = lower x := by
  unfold pip_get_installed at hp
  rw [List.mem_map] at hp
  obtain ⟨x, hx, rfl⟩ := hp
  rw [List.mem_filter] at hx
  obtain ⟨hxr, hcond⟩ := hx
  refine ⟨x, hxr, ?_, rfl⟩
  intro hxb
  rw [contains_iff_mem.mpr hxb] at hcond
  simp at hcond

/-- The base-including inspection result is the lowercased raw report. -/
theorem pip_get_installed_false_eq (raw : List String) :
    pip_get_installed false raw = raw.map lower := by
  unfold pip_get_installed
  congr 1
  rw [List.filter_eq_self]
  intro x _
  simp

/-- The part of the run after the install phase issues no install call. -/
theorem sync_deps_after_install_no_install (env : PipEnv) (deps : List String) (fuel : Nat) :
    ∀ a, Event.install a ∉ (sync_deps_after_install env deps fuel).1 := by
  intro a ha
  by_cases hloop : (sync_deps_loop env deps fuel 1).2 = Outcome.ok
  · cases hfz : env.freeze_output with
    | none =>
      rw [sync_deps_after_install_freeze_fail env deps fuel hloop hfz] at ha
      exact sync_deps_loop_no_install env deps fuel 1 a ha
    | some txt =>
      rw [sync_deps_after_install_ok env deps fuel txt hloop hfz] at ha
      rcases List.mem_append.mp ha with h1 | h2
      · exact sync_deps_loop_no_install env deps fuel 1 a h1
      · rw [List.mem_singleton] at h2
        exact Event.noConfusion h2
  · rw [sync_deps_after_install_not_ok env deps fuel hloop] at ha
    exact sync_deps_loop_no_install env deps fuel 1 a ha

/-- Every uninstall batch after the install phase comes from the removal loop. -/
theorem sync_deps_after_install_uninstall_mem (env : PipEnv) (deps : List String)
    (fuel : Nat) (ps : List String)
    (h : Event.uninstall ps ∈ (sync_deps_after_install env deps fuel).1) :
    Event.uninstall ps ∈ (sync_deps_loop env deps fuel 1).1 := by
  by_cases hloop : (sync_deps_loop env deps fuel 1).2 = Outcome.ok
  · cases hfz : env.freeze_output with
    | none =>
      rw [sync_deps_after_install_freeze_fail env deps fuel hloop hfz] at h
      exact h
    | some txt =>
      rw [sync_deps_after_install_ok env deps fuel txt hloop hfz] at h
      rcases List.mem_append.mp h with h1 | h2
      · exact h1
      · rw [List.mem_singleton] at h2
        exact Event.noConfusion h2
  · rw [sync_deps_after_install_not_ok env deps fuel hloop] at h
    exact h

/-- A snapshot is written only by a run that completes normally, with the raw
`pip freeze` output as its text. -/
theorem sync_deps_freeze_implies_ok (env : PipEnv) (deps : List String) (fuel : Nat)
    (t : String) (h : Event.freeze t ∈ (sync_deps env deps fuel).1) :
    (sync_deps env deps fuel).2 = Outcome.ok ∧ env.freeze_output = some t := by
  cases hl : env.list_output 0 with
  | none =>
    rw [sync_deps_none env deps fuel hl] at h
    simp at h
  | some raw =>
    by_cases hex : to_install_of deps raw = []
    · rw [sync_deps_no_install env deps fuel raw hl hex] at h ⊢
      rcases List.mem_cons.mp h with h1 | h2
      · exact Event.noConfusion h1
      · exact sync_deps_after_install_freeze env deps fuel t h2
    · cases hi : env.install_ok (to_install_of deps raw) with
      | false =>
        rw [sync_deps_install_failed env deps fuel raw hl hex hi] at h
        rcases List.mem_cons.mp h with h1 | h2
        · exact Event.noConfusion h1
        · rw [List.mem_singleton] at h2
          exact Event.noConfusion h2
      | true =>
        rw [sync_deps_with_install env deps fuel raw hl hex hi] at h ⊢
        rcases List.mem_cons.mp h with h1 | h2
        · exact Event.noConfusion h1
        · rcases List.mem_cons.mp h2 with h3 | h4
          · exact Event.noConfusion h3
          · exact sync_deps_after_install_freeze env deps fuel t h4

/-- Structure of a normally-completing run: the trace ends with the fixpoint
inspection (whose reported packages are all declared) followed by the single
snapshot write, and no snapshot is written earlier. -/
theorem sync_deps_ok_structure (env : PipEnv) (deps : List String) (fuel : Nat)
    (h : (sync_deps env deps fuel).2 = Outcome.ok) :
    ∃ pre inst txt, env.freeze_output = some txt
      ∧ (sync_deps env deps fuel).1 = pre ++ [Event.inspect true inst, Event.freeze txt]
      ∧ (∀ p ∈ inst, p ∈ deps)
      ∧ ∀ t, Event.freeze t ∉ pre ++ [Event.inspect true inst] := by
  have after_case : (sync_deps_after_install env deps fuel).2 = Outcome.ok →
      ∃ pre0 inst txt, env.freeze_output = some txt
        ∧ (sync_deps_after_install env deps fuel).1
            = pre0 ++ [Event.inspect true inst, Event.freeze txt]
        ∧ (∀ p ∈ inst, p ∈ deps)
        ∧ ∀ t, Event.freeze t ∉ pre0 ++ [Event.inspect true inst] := by
    intro hok
    by_cases hloop : (sync_deps_loop env deps fuel 1).2 = Outcome.ok
    · cases hfz : env.freeze_output with
      | none =>
        rw [sync_deps_after_install_freeze_fail env deps fuel hloop hfz] at hok
        simp at hok
      | some txt =>
        obtain ⟨pre0, inst, htr, hmem⟩ := sync_deps_loop_ok_structure env deps fuel 1 hloop
        refine ⟨pre0, inst, txt, rfl, ?_, hmem, ?_⟩
        · rw [sync_deps_after_install_ok env deps fuel txt hloop hfz, htr]
          simp
        · intro t ht
          have : Event.freeze t ∈ (sync_deps_loop env deps fuel 1).1 := by
            rw [htr]
            exact ht
          exact sync_deps_loop_no_freeze env deps fuel 1 t this
    · rw [sync_deps_after_install_not_ok env deps fuel hloop] at hok
      exact absurd hok hloop
  cases hl : env.list_output 0 with
  | none =>
    rw [sync_deps_none env deps fuel hl] at h
    simp at h
  | some raw =>
    by_cases hex : to_install_of deps raw = []
    · rw [sync_deps_no_install env deps fuel raw hl hex] at h ⊢
      obtain ⟨pre0, inst, txt, hfz, htr, hmem, hnf⟩ := after_case h
      refine ⟨Event.inspect false (pip_get_installed false raw) :: pre0, inst, txt, hfz, ?_,
        hmem, ?_⟩
      · rw [htr]
        simp
      · intro t ht
        exact hnf t (List.mem_append_left _ (by simpa using ht))
    · cases hi : env.install_ok (to_install_of deps raw) with
      | false =>
        rw [sync_deps_install_failed env deps fuel raw hl hex hi] at h
        simp at h
      | true =>
        rw [sync_deps_with_install env deps fuel raw hl hex hi] at h ⊢
        obtain ⟨pre0, inst, txt, hfz, htr, hmem, hnf⟩ := after_case h
        refine ⟨Event.inspect false (pip_get_installed false raw)
          :: Event.install (to_install_of deps raw) :: pre0, inst, txt, hfz, ?_, hmem, ?_⟩
        · rw [htr]
          simp
        · intro t ht
          exact hnf t (List.mem_append_left _ (by simpa using ht))

/-- An environment whose `pip list` always reports nothing while installs,
uninstalls and snapshot succeed. -/
def ghost_env : PipEnv :=
  { list_output := fun _ => some [],
    install_ok := fun _ => true,
    uninstall_ok := fun _ _ => true,
    freeze_output := some "" }

/-- C1, counterexample.  Under the environment behaviour `ghost_env` the run
over the declared set `["a"]` terminates successfully, yet the final (and
only) removal-phase inspection reports the installed set `[]`, which is not
equal to the declared set: success of `sync_deps` does not make the installed
set equal to the declared set under every environment behaviour. -/
theorem sync_deps_converge_counterexample :
    (sync_deps ghost_env ["a"] 1).2 = Outcome.ok
    ∧ (sync_deps ghost_env ["a"] 1).1
        = [Event.inspect false [], Event.install ["a"], Event.inspect true [],
           Event.freeze ""]
    ∧ ([] : List String) ≠ ["a"] := by decide

/-- C1 (amended).  Soundness of convergence, one direction: every successful
run ends with a fixpoint inspection followed by the snapshot, and every
package reported by that final inspection is declared (no undeclared package
remains); the converse inclusion (every declared package installed) does not
hold for arbitrary environment behaviour. -/
theorem sync_deps_converge_subset (env : PipEnv) (deps : List String) (fuel : Nat)
    (h : (sync_deps env deps fuel).2 = Outcome.ok) :
    ∃ pre inst txt,
      (sync_deps env deps fuel).1 = pre ++ [Event.inspect true inst, Event.freeze txt]
      ∧ ∀ p ∈ inst, p ∈ deps := by
  obtain ⟨pre, inst, txt, _, htr, hmem, _⟩ := sync_deps_ok_structure env deps fuel h
  exact ⟨pre, inst, txt, htr, hmem⟩

/-- Witness for C1 (amended) at a concrete run. -/
theorem sync_deps_converge_subset_witness :
    ∃ pre inst txt,
      (sync_deps ghost_env ["a"] 1).1 = pre ++ [Event.inspect true inst, Event.freeze txt]
      ∧ ∀ p ∈ inst, p ∈ ["a"] :=
  sync_deps_converge_subset ghost_env ["a"] 1 (by decide)

/-- C2.  Install phase: the run starts with one inspection that includes base
packages; `to_install` is the case-folded set difference declared − installed
(its members are exactly the declared names not reported installed, all names
on both sides being in folded form), listed in declared order; if it is empty
no install call is ever issued, and otherwise the run issues exactly one
batch install call with exactly those names, immediately after the first
inspection and never again later. -/
theorem sync_deps_install_phase (env : PipEnv) (deps : List String) (fuel : Nat)
    (raw : List String) (hdeps : ∀ p ∈ deps, lower p = p)
    (h0 : env.list_output 0 = some raw) :
    (∀ p, p ∈ to_install_of deps raw ↔ p ∈ deps ∧ p ∉ pip_get_installed false raw)
    ∧ List.Sublist (to_install_of deps raw) deps
    ∧ (∀ p ∈ to_install_of deps raw, lower p = p)
    ∧ (∀ p ∈ pip_get_installed false raw, lower p = p)
    ∧ (to_install_of deps raw = [] →
        (sync_deps env deps fuel).1
          = Event.inspect false (pip_get_installed false raw)
              :: (sync_deps_after_install env deps fuel).1
        ∧ ∀ a, Event.install a ∉ (sync_deps env deps fuel).1)
    ∧ (to_install_of deps raw ≠ [] →
        ∃ rest, (sync_deps env deps fuel).1
          = Event.inspect false (pip_get_installed false raw)
              :: Event.install (to_install_of deps raw) :: rest
          ∧ ∀ a, Event.install a ∉ rest) := by
  refine ⟨?_, ?_, ?_, ?_, ?_, ?_⟩
  · intro p
    unfold to_install_of
    rw [List.mem_filter]
    constructor
    · rintro ⟨hp, hb⟩
      refine ⟨hp, fun hmem => ?_⟩
      rw [contains_iff_mem.mpr hmem] at hb
      simp at hb
    · rintro ⟨hp, hmem⟩
      refine ⟨hp, ?_⟩
      rw [contains_eq_false hmem]
      simp
  · exact List.filter_sublist deps
  · intro p hp
    unfold to_install_of at hp
    exact hdeps p (List.mem_filter.mp hp).1
  · intro p hp
    unfold pip_get_installed at hp
    rw [List.mem_map] at hp
    obtain ⟨x, _, rfl⟩ := hp
    exact lower_lower x
  · intro hex
    rw [sync_deps_no_install env deps fuel raw h0 hex]
    refine ⟨rfl, ?_⟩
    intro a ha
    rcases List.mem_cons.mp ha with h1 | h2
    · exact Event.noConfusion h1
    · exact sync_deps_after_install_no_install env deps fuel a h2
  · intro hne
    cases hi : env.install_ok (to_install_of deps raw) with
    | false =>
      rw [sync_deps_install_failed env deps fuel raw h0 hne hi]
      refine ⟨[], rfl, ?_⟩
      intro a ha
      simp at ha
    | true =>
      rw [sync_deps_with_install env deps fuel raw h0 hne hi]
      exact ⟨(sync_deps_after_install env deps fuel).1, rfl,
        sync_deps_after_install_no_install env deps fuel⟩

/-- Witness for C2: a run with one missing package issues exactly one batch
install call right after the first inspection and none later. -/
theorem sync_deps_install_phase_witness :
    ∃ rest, (sync_deps ghost_env ["requests"] 1).1
      = Event.inspect false (pip_get_installed false [])
          :: Event.install (to_install_of ["requests"] []) :: rest
      ∧ ∀ a, Event.install a ∉ rest :=
  (sync_deps_install_phase ghost_env ["requests"] 1 [] (by decide) rfl).2.2.2.2.2 (by decide)

/-- C3.  Removal phase: each iteration of the loop inspects afresh with base
packages excluded; the extra set is exactly installed − declared in the
inspector-reported order; the loop stops issuing no uninstall call exactly
when extra is empty, and otherwise issues one batch uninstall call with
exactly the extra names and then re-inspects (the recursive call consumes the
next `pip list` report, never a previous one); every inspection of the loop
excludes base packages, and a loop that terminates normally performed one
inspection per uninstall call plus the final fixpoint inspection. -/
theorem sync_deps_removal_phase (env : PipEnv) (deps : List String) (fuel k : Nat)
    (raw : List String) (h : env.list_output k = some raw) :
    (∀ p, p ∈ extra_of deps raw ↔ p ∈ pip_get_installed true raw ∧ p ∉ deps)
    ∧ (extra_of deps raw = [] →
        sync_deps_loop env deps (fuel + 1) k
          = ([Event.inspect true (pip_get_installed true raw)], Outcome.ok))
    ∧ (extra_of deps raw ≠ [] → env.uninstall_ok k (extra_of deps raw) = true →
        sync_deps_loop env deps (fuel + 1) k
          = (Event.inspect true (pip_get_installed true raw)
              :: Event.uninstall (extra_of deps raw)
              :: (sync_deps_loop env deps fuel (k + 1)).1,
             (sync_deps_loop env deps fuel (k + 1)).2))
    ∧ (extra_of deps raw ≠ [] → env.uninstall_ok k (extra_of deps raw) = false →
        sync_deps_loop env deps (fuel + 1) k
          = ([Event.inspect true (pip_get_installed true raw),
              Event.uninstall (extra_of deps raw)], Outcome.failed))
    ∧ (∀ fuel2 k2, (sync_deps_loop env deps fuel2 k2).2 = Outcome.ok →
        countEvents isInspectEvent (sync_deps_loop env deps fuel2 k2).1
          = countEvents isUninstallEvent (sync_deps_loop env deps fuel2 k2).1 + 1)
    ∧ (∀ fuel2 k2 b l, Event.inspect b l ∈ (sync_deps_loop env deps fuel2 k2).1 →
        b = true) := by
  refine ⟨?_, sync_deps_loop_done env deps fuel k raw h,
    sync_deps_loop_step env deps fuel k raw h,
    sync_deps_loop_fail env deps fuel k raw h,
    sync_deps_loop_count env deps, ?_⟩
  · intro p
    unfold extra_of
    rw [List.mem_filter]
    constructor
    · rintro ⟨hp, hb⟩
      refine ⟨hp, fun hmem => ?_⟩
      rw [contains_iff_mem.mpr hmem] at hb
      simp at hb
    · rintro ⟨hp, hmem⟩
      refine ⟨hp, ?_⟩
      rw [contains_eq_false hmem]
      simp
  · intro fuel2 k2 b l hb
    rcases sync_deps_loop_events env deps fuel2 k2 _ hb with ⟨l2, hl2⟩ | ⟨ps, hps⟩
    · injection hl2 with hb2 hl3
    · exact Event.noConfusion hps

/-- Witness for C3: a loop iteration at the fixpoint breaks immediately after
its inspection. -/
theorem sync_deps_removal_phase_witness :
    sync_deps_loop ghost_env [] (0 + 1) 1
      = ([Event.inspect true (pip_get_installed true [])], Outcome.ok) :=
  (sync_deps_removal_phase ghost_env [] 0 1 [] rfl).2.1 (by decide)

/-- Witness for C7 at a concrete dependency list. -/
theorem cmd_add_case_folding_witness :
    cmd_add ["requests"] ["Flask", "flask"] = ["requests"] ++ ["flask"] :=
  (cmd_add_case_folding ["requests"] (by decide)).1

/-- Witness for C8 at a concrete dependency list. -/
theorem cmd_add_cmd_rm_roundtrip_witness :
    cmd_rm (cmd_add ["requests"] ["Flask"]) ["Flask"] = ["requests"] :=
  (cmd_add_cmd_rm_roundtrip ["requests"] ["Flask"] (by decide)).1

/-- An environment that reports the bootstrap package pip capitalized as
"Pip" until it is uninstalled. -/
def capital_pip_env : PipEnv :=
  { list_output := fun k => if k ≤ 1 then some ["Pip"] else some [],
    install_ok := fun _ => true,
    uninstall_ok := fun _ _ => true,
    freeze_output := some "" }

/-- C4, counterexample.  When the external manager reports the base package
pip as "Pip", the removal loop uninstalls it: the base-package exclusion in
`pip_get_installed` compares the raw reported name, not the folded one, so a
base package can appear in an uninstall batch. -/
theorem base_package_uninstalled_counterexample :
    (sync_deps capital_pip_env [] 2).1
      = [Event.inspect false ["pip"], Event.inspect true ["pip"],
         Event.uninstall ["pip"], Event.inspect true [], Event.freeze ""]
    ∧ (sync_deps capital_pip_env [] 2).2 = Outcome.ok
    ∧ Event.uninstall ["pip"] ∈ (sync_deps capital_pip_env [] 2).1
    ∧ "pip" ∈ base_packages
    ∧ lower "Pip" = "pip" := by decide

/-- C4 (amended).  If the external manager reports base packages only under
their canonical (lowercase, as listed in `base_packages`) names, then no
uninstall batch of any run ever contains a base package, whether or not it is
declared; with nonstandard capitalization in the report the protection fails
(see the counterexample). -/
theorem base_packages_never_uninstalled (env : PipEnv) (deps : List String) (fuel : Nat)
    (hcanon : ∀ k raw x, env.list_output k = some raw → x ∈ raw →
        lower x ∈ base_packages → x ∈ base_packages) :
    ∀ ps, Event.uninstall ps ∈ (sync_deps env deps fuel).1 →
      ∀ p ∈ ps, p ∉ base_packages := by
  have from_loop : ∀ ps, Event.uninstall ps ∈ (sync_deps_loop env deps fuel 1).1 →
      ∀ p ∈ ps, p ∉ base_packages := by
    intro ps hmem p hp hpb
    obtain ⟨j, raw, hj, _, rfl⟩ := sync_deps_loop_uninstall_origin env deps fuel 1 ps hmem
    have hpi : p ∈ pip_get_installed true raw := (List.mem_filter.mp hp).1
    obtain ⟨x, hxr, hxb, rfl⟩ := mem_pip_get_installed_true hpi
    exact hxb (hcanon j raw x hj hxr hpb)
  intro ps hmem
  cases hl : env.list_output 0 with
  | none =>
    rw [sync_deps_none env deps fuel hl] at hmem
    simp at hmem
  | some raw =>
    by_cases hex : to_install_of deps raw = []
    · rw [sync_deps_no_install env deps fuel raw hl hex] at hmem
      rcases List.mem_cons.mp hmem with h1 | h2
      · exact Event.noConfusion h1
      · exact from_loop ps (sync_deps_after_install_uninstall_mem env deps fuel ps h2)
    · cases hi : env.install_ok (to_install_of deps raw) with
      | false =>
        rw [sync_deps_install_failed env deps fuel raw hl hex hi] at hmem
        rcases List.mem_cons.mp hmem with h1 | h2
        · exact Event.noConfusion h1
        · rw [List.mem_singleton] at h2
          exact Event.noConfusion h2
      | true =>
        rw [sync_deps_with_install env deps fuel raw hl hex hi] at hmem
        rcases List.mem_cons.mp hmem with h1 | h2
        · exact Event.noConfusion h1
        · rcases List.mem_cons.mp h2 with h3 | h4
          · exact Event.noConfusion h3
          · exact from_loop ps (sync_deps_after_install_uninstall_mem env deps fuel ps h4)

/-- An environment that always reports the single canonical name "numpy". -/
def canon_env : PipEnv :=
  { list_output := fun _ => some ["numpy"],
    install_ok := fun _ => true,
    uninstall_ok := fun _ _ => true,
    freeze_output := some "" }

/-- Witness for C4 (amended): in a canonically-reporting environment the
issued uninstall batch `["numpy"]` contains no base package. -/
theorem base_packages_never_uninstalled_witness : "numpy" ∉ base_packages :=
  base_packages_never_uninstalled canon_env [] 2
    (by
      intro k raw x hs hx hl
      injection hs with hraw
      rw [← hraw] at hx
      rw [List.mem_singleton] at hx
      rw [hx] at hl
      exact absurd hl (by decide))
    ["numpy"] (by decide) "numpy" (by decide)

/-- C5.  Abort on first failure: a failed first inspection ends the run at
once with a failure outcome and an empty trace; a failed install call ends
the run immediately after that single install call, with no retry, no
uninstall call and no snapshot; a failed uninstall call ends the removal loop
immediately after it; and a snapshot event only ever occurs in a run whose
outcome is normal completion (so no failed run writes a snapshot). -/
theorem sync_deps_abort_on_failure (env : PipEnv) (deps : List String) (fuel : Nat) :
    (env.list_output 0 = none → sync_deps env deps fuel = ([], Outcome.failed))
    ∧ (∀ raw, env.list_output 0 = some raw → to_install_of deps raw ≠ [] →
        env.install_ok (to_install_of deps raw) = false →
        sync_deps env deps fuel
          = ([Event.inspect false (pip_get_installed false raw),
              Event.install (to_install_of deps raw)], Outcome.failed)
        ∧ (∀ ps, Event.uninstall ps ∉ (sync_deps env deps fuel).1)
        ∧ (∀ t, Event.freeze t ∉ (sync_deps env deps fuel).1)
        ∧ countEvents isInstallEvent (sync_deps env deps fuel).1 = 1)
    ∧ (∀ fuel2 k raw, env.list_output k = some raw → extra_of deps raw ≠ [] →
        env.uninstall_ok k (extra_of deps raw) = false →
        sync_deps_loop env deps (fuel2 + 1) k
          = ([Event.inspect true (pip_get_installed true raw),
              Event.uninstall (extra_of deps raw)], Outcome.failed))
    ∧ (∀ t, Event.freeze t ∈ (sync_deps env deps fuel).1 →
        (sync_deps env deps fuel).2 = Outcome.ok)
    ∧ (env.freeze_output = none →
        (sync_deps env deps fuel).2 ≠ Outcome.ok
        ∧ ∀ t, Event.freeze t ∉ (sync_deps env deps fuel).1) := by
  refine ⟨sync_deps_none env deps fuel, ?_, ?_, ?_, ?_⟩
  · intro raw h0 hne hbad
    have htr := sync_deps_install_failed env deps fuel raw h0 hne hbad
    rw [htr]
    refine ⟨rfl, ?_, ?_, ?_⟩
    · intro ps hps
      rcases List.mem_cons.mp hps with h1 | h2
      · exact Event.noConfusion h1
      · rw [List.mem_singleton] at h2
        exact Event.noConfusion h2
    · intro t ht
      rcases List.mem_cons.mp ht with h1 | h2
      · exact Event.noConfusion h1
      · rw [List.mem_singleton] at h2
        exact Event.noConfusion h2
    · simp [countEvents, isInstallEvent, List.filter_cons]
  · intro fuel2 k raw h hne hbad
    exact sync_deps_loop_fail env deps fuel2 k raw h hne hbad
  · intro t ht
    exact (sync_deps_freeze_implies_ok env deps fuel t ht).1
  · intro hfz
    constructor
    · intro hok
      obtain ⟨_, _, txt, hsome, _, _, _⟩ := sync_deps_ok_structure env deps fuel hok
      rw [hfz] at hsome
      exact Option.noConfusion hsome
    · intro t ht
      have := (sync_deps_freeze_implies_ok env deps fuel t ht).2
      rw [hfz] at this
      exact Option.noConfusion this

/-- An environment whose install calls fail. -/
def fail_install_env : PipEnv :=
  { list_output := fun _ => some [],
    install_ok := fun _ => false,
    uninstall_ok := fun _ _ => true,
    freeze_output := some "" }

/-- Witness for C5: a failed install of "x" aborts the run right after the
install call, with no uninstall and no snapshot. -/
theorem sync_deps_abort_on_failure_witness :
    sync_deps fail_install_env ["x"] 1
      = ([Event.inspect false (pip_get_installed false []),
          Event.install (to_install_of ["x"] [])], Outcome.failed)
    ∧ (∀ ps, Event.uninstall ps ∉ (sync_deps fail_install_env ["x"] 1).1)
    ∧ (∀ t, Event.freeze t ∉ (sync_deps fail_install_env ["x"] 1).1)
    ∧ countEvents isInstallEvent (sync_deps fail_install_env ["x"] 1).1 = 1 :=
  (sync_deps_abort_on_failure fail_install_env ["x"] 1).2.1 [] rfl (by decide) rfl

/-- C6.  Snapshot phase: every successful run writes the snapshot exactly
once, as its very last action after the removal loop has reached its
fixpoint, with the raw `pip freeze` output as its contents; and when the
environment already matches the declared set (nothing missing on the first
inspection, nothing extra on the second), the run issues zero install calls
and zero uninstall calls yet still writes the snapshot over the lockfile. -/
theorem sync_deps_snapshot_phase (env : PipEnv) (deps : List String) (fuel : Nat) :
    ((sync_deps env deps fuel).2 = Outcome.ok →
      ∃ pre txt, env.freeze_output = some txt
        ∧ (sync_deps env deps fuel).1 = pre ++ [Event.freeze txt]
        ∧ ∀ t, Event.freeze t ∉ pre)
    ∧ (∀ raw raw1 txt, env.list_output 0 = some raw → to_install_of deps raw = [] →
        env.list_output 1 = some raw1 → extra_of deps raw1 = [] →
        env.freeze_output = some txt → 1 ≤ fuel →
        sync_deps env deps fuel
          = ([Event.inspect false (pip_get_installed false raw),
              Event.inspect true (pip_get_installed true raw1),
              Event.freeze txt], Outcome.ok)) := by
  constructor
  · intro h
    obtain ⟨pre, inst, txt, hfz, htr, _, hnf⟩ := sync_deps_ok_structure env deps fuel h
    refine ⟨pre ++ [Event.inspect true inst], txt, hfz, ?_, hnf⟩
    rw [htr]
    simp
  · intro raw raw1 txt h0 hex h1 hex1 hfz hfuel
    obtain ⟨m, rfl⟩ : ∃ m, fuel = m + 1 := ⟨fuel - 1, by omega⟩
    have hloop := sync_deps_loop_done env deps m 1 raw1 h1 hex1
    have hloopok : (sync_deps_loop env deps (m + 1) 1).2 = Outcome.ok := by
      rw [hloop]
    rw [sync_deps_no_install env deps (m + 1) raw h0 hex,
      sync_deps_after_install_ok env deps (m + 1) txt hloopok hfz, hloop]
    rfl

/-- An environment already agreeing with the declared set `["a"]`. -/
def tidy_env : PipEnv :=
  { list_output := fun _ => some ["a"],
    install_ok := fun _ => true,
    uninstall_ok := fun _ _ => true,
    freeze_output := some "a==1.0" }

/-- Witness for C6: a no-op run still writes the snapshot. -/
theorem sync_deps_snapshot_phase_witness :
    sync_deps tidy_env ["a"] 1
      = ([Event.inspect false (pip_get_installed false ["a"]),
          Event.inspect true (pip_get_installed true ["a"]),
          Event.freeze "a==1.0"], Outcome.ok) :=
  (sync_deps_snapshot_phase tidy_env ["a"] 1).2 ["a"] ["a"] "a==1.0" rfl (by decide) rfl
    (by decide) rfl (by decide)

/-- An environment that reports the same undeclared package "b" at every
inspection, with every uninstall call succeeding. -/
def stuck_env : PipEnv :=
  { list_output := fun _ => some ["b"],
    install_ok := fun _ => true,
    uninstall_ok := fun _ _ => true,
    freeze_output := some "" }

/-- Under `stuck_env` the removal loop spends all its fuel, issuing one
uninstall batch per iteration. -/
theorem sync_deps_loop_stuck : ∀ fuel k,
    (sync_deps_loop stuck_env [] fuel k).2 = Outcome.fuelOut
    ∧ countEvents isUninstallEvent (sync_deps_loop stuck_env [] fuel k).1 = fuel := by
  intro fuel
  induction fuel with
  | zero => exact fun k => ⟨rfl, rfl⟩
  | succ fuel ih =>
    intro k
    have hl : stuck_env.list_output k = some ["b"] := rfl
    have hex : extra_of [] ["b"] ≠ [] := by decide
    have hu : stuck_env.uninstall_ok k (extra_of [] ["b"]) = true := rfl
    rw [sync_deps_loop_step stuck_env [] fuel k ["b"] hl hex hu]
    refine ⟨(ih (k + 1)).1, ?_⟩
    have hc := (ih (k + 1)).2
    simp only [countEvents] at hc ⊢
    simp [List.filter_cons, isUninstallEvent, hc]

/-- C9.  Unbounded removal loop: under the inspector behaviour `stuck_env`,
which reports the same non-empty undeclared set on every iteration, the run
never terminates and keeps issuing uninstall calls: for every fuel bound the
outcome is fuel exhaustion (never normal completion, never an error raised
for non-convergence), and the number of issued uninstall batches equals the
number of iterations allowed. -/
theorem sync_deps_nontermination : ∀ fuel,
    (sync_deps stuck_env [] fuel).2 = Outcome.fuelOut
    ∧ countEvents isUninstallEvent (sync_deps stuck_env [] fuel).1 = fuel := by
  intro fuel
  have hl : stuck_env.list_output 0 = some ["b"] := rfl
  have hex : to_install_of [] ["b"] = [] := by decide
  have hstuck := sync_deps_loop_stuck fuel 1
  have hnotok : (sync_deps_loop stuck_env [] fuel 1).2 ≠ Outcome.ok := by
    rw [hstuck.1]
    intro hcontra
    exact Outcome.noConfusion hcontra
  rw [sync_deps_no_install stuck_env [] fuel ["b"] hl hex,
    sync_deps_after_install_not_ok stuck_env [] fuel hnotok]
  refine ⟨hstuck.1, ?_⟩
  have hc := hstuck.2
  simp only [countEvents] at hc ⊢
  simp [List.filter_cons, isUninstallEvent, hc]

/-- C10.  An entry of the declared list containing an ASCII uppercase letter
never matches the lowercased inspector output: it is in the computed missing
set for every possible report, hence in the install batch of every run whose
first inspection succeeds; and it does not shield the corresponding
lowercased installed name from the removal diff, which compares the reported
lowercase name against the raw declared entries. -/
theorem uppercase_declared_entry (deps : List String) (d : String) (hd : d ∈ deps)
    (hup : ∃ c ∈ d.data, c.isUpper = true) :
    (∀ raw : List String, d ∈ to_install_of deps raw)
    ∧ (∀ env : PipEnv, ∀ fuel raw, env.list_output 0 = some raw →
        Event.install (to_install_of deps raw) ∈ (sync_deps env deps fuel).1)
    ∧ (∀ raw, lower d ∉ deps → lower d ∈ pip_get_installed true raw →
        lower d ∈ extra_of deps raw) := by
  have hnotlower : ∀ raw : List String, d ∉ pip_get_installed false raw := by
    intro raw hmem
    unfold pip_get_installed at hmem
    rw [List.mem_map] at hmem
    obtain ⟨x, _, hx⟩ := hmem
    exact ne_lower_of_upper hup x hx.symm
  have hmiss : ∀ raw : List String, d ∈ to_install_of deps raw := by
    intro raw
    unfold to_install_of
    rw [List.mem_filter]
    refine ⟨hd, ?_⟩
    rw [contains_eq_false (hnotlower raw)]
    simp
  refine ⟨hmiss, ?_, ?_⟩
  · intro env fuel raw h0
    have hne : to_install_of deps raw ≠ [] := List.ne_nil_of_mem (hmiss raw)
    cases hi : env.install_ok (to_install_of deps raw) with
    | false =>
      rw [sync_deps_install_failed env deps fuel raw h0 hne hi]
      exact List.mem_cons_of_mem _ (List.mem_singleton.mpr rfl)
    | true =>
      rw [sync_deps_with_install env deps fuel raw h0 hne hi]
      exact List.mem_cons_of_mem _ (List.mem_cons_self _ _)
  · intro raw hld hmem
    unfold extra_of
    rw [List.mem_filter]
    refine ⟨hmem, ?_⟩
    rw [contains_eq_false hld]
    simp

/-- Witness for C10: the declared entry "Flask" is in the missing set even
when the inspector reports flask as installed. -/
theorem uppercase_declared_entry_witness :
    "Flask" ∈ to_install_of ["Flask"] ["flask"] :=
  (uppercase_declared_entry ["Flask"] "Flask" (by decide)
    ⟨'F', by decide, by decide⟩).1 ["flask"]

end Pybuild

